import Mathlib

/-!
Verification development for the JBFragmentEngine taxonomy tools.

The definitions below are a shallow embedding of the four Python tools
under tools/: build_stage.py (the Stager), validate_vocabularies.py
(the standalone validator), check_duplicates.py (cross-entry duplicate
detection) and merge_seed_taxonomies.py (the seed Merger).

Conventions of the embedding:
  - A Python dict parsed from YAML or JSON is modelled as an association
    list with unique keys; assignment d[k] = v replaces the value at an
    existing key in place or appends a new pair at the end, and lookup
    returns the value at the matching key.
  - An absent field is modelled as Option.none; a field present with an
    empty value is Option.some of the empty value.  Python truthiness of
    strings (falsy means None or empty) is made explicit at each use.
  - Python str.strip and str.lower are pyStrip and pyLower, and
    sorted(..., key=str.lower) is a stable sort by the lowered string.
    Python iterates sets in a hash-seed-randomized order, so the real
    program leaves the relative order of strings equal after lowering
    to the runtime; the model fixes that enumeration to first
    occurrence, so only tie-invariant properties of the synonym order
    are asserted of the program.
-/

namespace JBF

/-- Python str.lower, modelled character by character over the string
data (the sources only ever lower ASCII identifiers, where this agrees
with Python). -/
def pyLower (s : String) : String :=
  String.mk (s.data.map Char.toLower)

/-- Lexicographic code-point comparison of character lists: the order
Python uses to compare strings. -/
def charListLe : List Char → List Char → Bool
  | [], _ => true
  | _ :: _, [] => false
  | a :: as, b :: bs =>
      decide (a.toNat < b.toNat) || (decide (a.toNat = b.toNat) && charListLe as bs)

/-- Python string less-or-equal, written over the string data. -/
def pyStrLe (a b : String) : Bool :=
  charListLe a.data b.data

/-- Python str.strip, modelled over the string data: drop whitespace
from both ends. -/
def pyStrip (s : String) : String :=
  String.mk (((s.data.dropWhile Char.isWhitespace).reverse.dropWhile Char.isWhitespace).reverse)

/-- Python truthiness for an optional string field: returns the string
when it is present and non-empty, otherwise none.  Models the pattern
if not s: ... on a value obtained with dict.get. -/
def pyTruthy (o : Option String) : Option String :=
  match o with
  | none => none
  | some s => if s = "" then none else some s

/-- Models the Python idiom (o or d) for an optional string o with a
string default d: the default is used when o is None or empty. -/
def pyOrStr (o : Option String) (d : String) : String :=
  match o with
  | none => d
  | some s => if s = "" then d else s

/-- Order-preserving dedup against an accumulator of already seen keys.
Models the loop of de_dupe_preserve_order in tools/build_stage.py with
the seen set made explicit as a list of keys. -/
def dedupeAux (key : String → String) : List String → List String → List String
  | [], _ => []
  | x :: xs, seen =>
      if key x ∈ seen then dedupeAux key xs seen
      else x :: dedupeAux key xs (key x :: seen)

/-- tools/build_stage.py, de_dupe_preserve_order: keeps the first
occurrence of each case-insensitive key (the items here are always
strings, so the key is the lowercase form). -/
def de_dupe_preserve_order (items : List String) : List String :=
  dedupeAux pyLower items []

/-- A verb entry of the core lexicon document: optional id and optional
synonyms list, as read from YAML. -/
structure VerbEntryRaw where
  id : Option String := none
  synonyms : Option (List String) := none
  deriving DecidableEq

/-- The inverse_of field of a relation: either a scalar string or a list
of strings (YAML null is modelled as the field being absent). -/
inductive InvVal where
  | str (s : String)
  | list (l : List String)
  deriving DecidableEq

/-- A relation record of the rels mapping, with the fields the tools
read; an absent field is none. -/
structure RelEntry where
  id : Option String := none
  description : Option String := none
  lex_ref : Option String := none
  inverse_of : Option InvVal := none
  verbs : Option (List String) := none
  deriving DecidableEq

/-- tools/build_stage.py lines 65 and 66: synonyms normalisation.
List comprehension [s.strip() for s in (v.get("synonyms") or []) if s]
keeps the stripped form of every originally non-empty string, then
sorted(set(...), key=str.lower) removes exact duplicates and sorts by
the lowered string.  The sort is stable in the set iteration order,
which Python randomizes per process; the model enumerates the set by
first occurrence, so the relative order of case-insensitively-equal
synonyms here is one of the orders the program can produce, not the
only one. -/
def normSynonyms (syns : Option (List String)) : List String :=
  let stripped := ((syns.getD []).filter (fun s => s ≠ "")).map pyStrip
  List.insertionSort (fun a b => pyStrLe (pyLower a) (pyLower b) = true) (dedupeAux (fun s => s) stripped [])

/-- The in-place update v["synonyms"] = sorted(set(synonyms), key=str.lower)
applied to one core entry (tools/build_stage.py line 66). -/
def normVerb (v : VerbEntryRaw) : VerbEntryRaw :=
  { v with synonyms := some (normSynonyms v.synonyms) }

/-- tools/build_stage.py lines 61 to 70: walk the core entries, failing
with a ValueError when an entry id strips to empty, and normalising the
synonyms of each entry in place.  Returns the mutated entries list. -/
def buildCore : List VerbEntryRaw → Except String (List VerbEntryRaw)
  | [] => .ok []
  | v :: vs =>
      if pyStrip (v.id.getD "") = "" then
        .error "Found a core verb without an id."
      else do
        let rest ← buildCore vs
        .ok (normVerb v :: rest)

/-- Lookup in core_index, the dict keyed by the stripped entry id built
at tools/build_stage.py line 67.  Dict assignment overwrites, so the
last entry with a given stripped id wins. -/
def coreIndexLookup (entries : List VerbEntryRaw) (k : String) : Option VerbEntryRaw :=
  (entries.filter (fun v => pyStrip (v.id.getD "") = k)).getLast?

/-- An invalid_lex_ref issue record: rel key and the offending stripped
lex_ref. -/
structure LexIssue where
  rel : String
  lex_ref : String
  deriving DecidableEq

/-- An invalid_inverse_targets issue record: rel key and the offending
target. -/
structure InvIssue where
  rel : String
  target : String
  deriving DecidableEq

/-- A staged relation record as placed into staged_rels by
tools/build_stage.py lines 83 to 108: the copied relation with id
defaulted to the mapping key, verbs optionally dropped, and the derived
verbs_resolved list attached. -/
structure StagedRel where
  id : String
  description : Option String
  lex_ref : Option String
  inverse_of : Option InvVal
  verbs : Option (List String)
  verbs_resolved : List String
  deriving DecidableEq

/-- tools/build_stage.py lines 83 to 96: process one (rid, rel) pair of
the sorted rels mapping.  Returns the staged record together with the
invalid_lex_ref issue when the stripped lex_ref is empty or not a key of
the core index.  The empty string is never a key of the index (ids that
strip to empty abort the load), so matching on the lookup first and
testing emptiness inside the found branch is the same condition as the
Python test (not lex_ref or lex_ref not in core_index). -/
def stageOne (index : List VerbEntryRaw) (dropVerbs : Bool)
    (p : String × RelEntry) : StagedRel × Option LexIssue :=
  let rid := p.1
  let rel := p.2
  let lex_ref := pyStrip (rel.lex_ref.getD "")
  let idv := pyOrStr rel.id rid
  let verbsField := if dropVerbs then none else rel.verbs
  match coreIndexLookup index lex_ref with
  | none =>
      (⟨idv, rel.description, rel.lex_ref, rel.inverse_of, verbsField, []⟩,
       some ⟨rid, lex_ref⟩)
  | some lex =>
      if lex_ref = "" then
        (⟨idv, rel.description, rel.lex_ref, rel.inverse_of, verbsField, []⟩,
         some ⟨rid, lex_ref⟩)
      else
        (⟨idv, rel.description, rel.lex_ref, rel.inverse_of, verbsField,
          de_dupe_preserve_order ((lex.id.getD "") :: (lex.synonyms.getD []))⟩,
         none)

/-- tools/build_stage.py lines 98 to 106: validate the inverse_of
targets of one relation against the set of relation mapping keys.  Note
that only the scalar branch exempts the literal string null
(case-insensitively); list elements are checked unconditionally. -/
def invIssuesOf (validRelIds : List String) (rid : String) (rel : RelEntry) : List InvIssue :=
  match rel.inverse_of with
  | none => []
  | some (.list ts) =>
      (ts.filter (fun t => t ∉ validRelIds)).map (fun t => ⟨rid, t⟩)
  | some (.str s) =>
      if pyLower s ≠ "null" ∧ s ∉ validRelIds then [⟨rid, s⟩] else []

/-- tools/build_stage.py line 82: sorted(rels_map.items(), key=lambda
x: x[0].lower()). -/
def pySortRels (rels : List (String × RelEntry)) : List (String × RelEntry) :=
  List.insertionSort (fun a b => pyStrLe (pyLower a.1) (pyLower b.1) = true) rels

/-- The accumulated results of the staging loop (tools/build_stage.py
lines 76 to 108): the staged relations in sorted order and the two
issue lists. -/
structure StageResult where
  staged : List StagedRel
  invalid_lex_ref : List LexIssue
  invalid_inverse_targets : List InvIssue
  deriving DecidableEq

/-- The staging loop of tools/build_stage.py: one pass over the rels
mapping sorted case-insensitively by key, producing the staged records
and accumulating both issue lists. -/
def stageRels (index : List VerbEntryRaw) (validRelIds : List String)
    (dropVerbs : Bool) (rels : List (String × RelEntry)) : StageResult :=
  let sorted := pySortRels rels
  { staged := sorted.map (fun p => (stageOne index dropVerbs p).1)
  , invalid_lex_ref := sorted.filterMap (fun p => (stageOne index dropVerbs p).2)
  , invalid_inverse_targets := sorted.flatMap (fun p => invIssuesOf validRelIds p.1 p.2) }

/-- The summary object shared by all three staged artifacts
(tools/build_stage.py lines 112 to 119).  generated_at comes from the
wall clock (datetime.datetime.now) at staging time. -/
structure Summary where
  generated_at : String
  core_file : String
  rels_file : String
  rels_count : Nat
  verbs_count : Nat
  issues_invalid_lex_ref : Nat
  issues_invalid_inverse_targets : Nat
  deriving DecidableEq

/-- The issues_detail object of stage_report.json. -/
structure StageIssues where
  invalid_lex_ref : List LexIssue
  invalid_inverse_targets : List InvIssue
  deriving DecidableEq

/-- The three artifacts written by tools/build_stage.py lines 122 to
129: rels_resolved.preview.json, core_verb_lexicon.preview.json and
stage_report.json. -/
structure Artifacts where
  relsPreview : List StagedRel × Summary
  verbsPreview : List VerbEntryRaw × Summary
  stageReport : Summary × StageIssues
  deriving DecidableEq

/-- tools/build_stage.py main, after argument and path handling: loads
are modelled by taking the parsed core entries list and rels mapping as
inputs; the wall-clock timestamp and the two source path strings are
ambient inputs of the run.  Fails (ValueError, caught at top level with
exit 1 and nothing written) when a core entry id strips to empty. -/
def buildStage (corePath relsPath timestamp : String)
    (coreEntries : List VerbEntryRaw) (relsMap : List (String × RelEntry))
    (dropVerbs : Bool) : Except String Artifacts := do
  let entries ← buildCore coreEntries
  let res := stageRels entries (relsMap.map Prod.fst) dropVerbs relsMap
  let summary : Summary :=
    { generated_at := timestamp
    , core_file := corePath
    , rels_file := relsPath
    , rels_count := res.staged.length
    , verbs_count := entries.length
    , issues_invalid_lex_ref := res.invalid_lex_ref.length
    , issues_invalid_inverse_targets := res.invalid_inverse_targets.length }
  .ok { relsPreview := (res.staged, summary)
      , verbsPreview := (entries, summary)
      , stageReport := (summary, ⟨res.invalid_lex_ref, res.invalid_inverse_targets⟩) }

/-- An empty_or_missing_fields issue record of the standalone
validator. -/
structure FieldIssue where
  rel : String
  missing_field : String
  deriving DecidableEq

/-- tools/validate_vocabularies.py lines 19 to 31: the set of core verb
ids; entries whose id is absent or empty are skipped (continue), and no
stripping is applied. -/
def coreIds (core : List VerbEntryRaw) : List String :=
  core.filterMap (fun v => pyTruthy v.id)

/-- The required relation fields checked by the validator
(tools/validate_vocabularies.py line 46). -/
def requiredFields : List String := ["id", "description"]

/-- Whether a relation record has the named field present in its
mapping (Python: field in rel); an empty value still counts as
present. -/
def hasField (rel : RelEntry) : String → Bool
  | "id" => rel.id.isSome
  | "description" => rel.description.isSome
  | _ => false

/-- tools/validate_vocabularies.py lines 45 to 48: record an issue for
each required field absent from the relation mapping. -/
def vFieldIssues (rid : String) (rel : RelEntry) : List FieldIssue :=
  requiredFields.filterMap (fun f =>
    if hasField rel f then none else some ⟨rid, f⟩)

/-- tools/validate_vocabularies.py lines 50 to 53: a missing_lex_ref_in_core
issue is recorded only when lex_ref is truthy (present and non-empty)
and not among the core ids. -/
def vLexIssue (cids : List String) (rid : String) (rel : RelEntry) : Option LexIssue :=
  match pyTruthy rel.lex_ref with
  | none => none
  | some s => if s ∉ cids then some ⟨rid, s⟩ else none

/-- tools/validate_vocabularies.py lines 56 to 64: inverse_of target
checks.  The whole block is guarded by Python truthiness of inv, so an
empty string scalar (and the vacuous empty list) is skipped; in the
scalar branch the literal null is exempted case-insensitively, in the
list branch every element is checked unconditionally. -/
def vInvIssues (relIds : List String) (rid : String) (rel : RelEntry) : List InvIssue :=
  match rel.inverse_of with
  | none => []
  | some (.list ts) =>
      (ts.filter (fun t => t ∉ relIds)).map (fun t => ⟨rid, t⟩)
  | some (.str s) =>
      if s = "" then []
      else if s ∉ relIds ∧ pyLower s ≠ "null" then [⟨rid, s⟩] else []

/-- The issues object of the standalone validator. -/
structure VResult where
  missing_lex_ref_in_core : List LexIssue
  invalid_inverse_targets : List InvIssue
  empty_or_missing_fields : List FieldIssue
  deriving DecidableEq

/-- tools/validate_vocabularies.py main: a single pass over the rels
mapping in document order, appending to the three issue lists; the
pass is split here into one traversal per list, which preserves each
list exactly. -/
def validate (core : List VerbEntryRaw) (rels : List (String × RelEntry)) : VResult :=
  { missing_lex_ref_in_core :=
      rels.filterMap (fun p => vLexIssue (coreIds core) p.1 p.2)
  , invalid_inverse_targets :=
      rels.flatMap (fun p => vInvIssues (rels.map Prod.fst) p.1 p.2)
  , empty_or_missing_fields :=
      rels.flatMap (fun p => vFieldIssues p.1 p.2) }

/-- tools/validate_vocabularies.py lines 67 to 68: clean iff every
issue count is zero. -/
def validateClean (core : List VerbEntryRaw) (rels : List (String × RelEntry)) : Bool :=
  let r := validate core rels
  r.missing_lex_ref_in_core.isEmpty && r.invalid_inverse_targets.isEmpty &&
    r.empty_or_missing_fields.isEmpty

/-- The status field of the validator result object. -/
def validateStatus (core : List VerbEntryRaw) (rels : List (String × RelEntry)) : String :=
  if validateClean core rels then "OK" else "ISSUES_FOUND"

/-- The validator process exit code (tools/validate_vocabularies.py
line 78): 0 iff clean. -/
def validateExit (core : List VerbEntryRaw) (rels : List (String × RelEntry)) : Nat :=
  if validateClean core rels then 0 else 1

/-- Dict with list values and setdefault(k, []).append(v) update, as
used for synonym_to_primary in tools/check_duplicates.py line 28:
append to the value at an existing key, else append a new (k, [v]) pair
at the end. -/
def dictAppend : List (String × List String) → String → String → List (String × List String)
  | [], k, v => [(k, [v])]
  | (k₀, vs) :: t, k, v =>
      if k₀ = k then (k₀, vs ++ [v]) :: t
      else (k₀, vs) :: dictAppend t k v

/-- Lookup in a dict with list values: the value at the key, or the
empty list when the key is absent. -/
def dlookupL (d : List (String × List String)) (k : String) : List String :=
  ((d.find? (fun p => p.1 = k)).map Prod.snd).getD []

/-- One step of the verbs loop of tools/check_duplicates.py lines 19
to 28: skip entries whose id is falsy, otherwise register the primary
under every synonym of the entry. -/
def stpStep (d : List (String × List String)) (v : VerbEntryRaw) : List (String × List String) :=
  match pyTruthy v.id with
  | none => d
  | some p => (v.synonyms.getD []).foldl (fun d₀ syn => dictAppend d₀ syn p) d

/-- tools/check_duplicates.py lines 17 to 28: the synonym_to_primary
dict mapping each synonym string to the list of primary ids that list
it, in traversal order, with repeats appended repeatedly. -/
def synonym_to_primary (verbs : List VerbEntryRaw) : List (String × List String) :=
  verbs.foldl stpStep []

/-- tools/check_duplicates.py lines 49 to 58: the cross-entry duplicate
report, one (synonym, owning primaries) pair for every synonym owned by
more than one registered primary occurrence. -/
def duplicate_synonyms (verbs : List VerbEntryRaw) : List (String × List String) :=
  (synonym_to_primary verbs).filter (fun p => p.2.length > 1)

/-- The owners a given synonym string accumulates over a verbs list:
one copy of the primary id per occurrence in each truthy-id entry. -/
def ownersSpec (verbs : List VerbEntryRaw) (x : String) : List String :=
  verbs.flatMap (fun v =>
    match pyTruthy v.id with
    | none => []
    | some p => ((v.synonyms.getD []).filter (fun s => s = x)).map (fun _ => p))

/-- A top-level value of the seed document: the verbs list, the rels
mapping, or any other JSON value (opaque, drawn from an arbitrary
type). -/
inductive SeedVal (V : Type) where
  | verbsV (l : List VerbEntryRaw)
  | relsV (m : List (String × RelEntry))
  | otherV (v : V)

/-- Python dict assignment d[k] = v on an association list with unique
keys: replace the value at an existing key in place, else append. -/
def dictSet {V : Type} : List (String × V) → String → V → List (String × V)
  | [], k, v => [(k, v)]
  | (k₀, v₀) :: t, k, v =>
      if k₀ = k then (k₀, v) :: t
      else (k₀, v₀) :: dictSet t k v

/-- Dict lookup on an association list: the value at the first matching
key, if any. -/
def dlookup {V : Type} (d : List (String × V)) (k : String) : Option V :=
  (d.find? (fun p => p.1 = k)).map Prod.snd

/-- tools/merge_seed_taxonomies.py main: shallow-copy the seed document
and overwrite its verbs and rels keys with core.get("verbs", []) and
rels.get("rels", \x7b\x7d). -/
def mergeSeedMain {V : Type} (coreVerbs : Option (List VerbEntryRaw))
    (relsMap : Option (List (String × RelEntry)))
    (seed : List (String × SeedVal V)) : List (String × SeedVal V) :=
  dictSet (dictSet seed "verbs" (.verbsV (coreVerbs.getD []))) "rels" (.relsV (relsMap.getD []))

/-! Order lemmas for the Python string comparison. -/

theorem charListLe_total : ∀ a b : List Char, charListLe a b = true ∨ charListLe b a = true
  | [], _ => Or.inl rfl
  | _ :: _, [] => Or.inr rfl
  | a :: as, b :: bs => by
    rcases Nat.lt_trichotomy a.toNat b.toNat with h | h | h
    · left; simp [charListLe, h]
    · rcases charListLe_total as bs with ih | ih
      · left; simp [charListLe, h, ih]
      · right; simp [charListLe, h.symm, ih]
    · right; simp [charListLe, h]

theorem charListLe_trans :
    ∀ {a b c : List Char}, charListLe a b = true → charListLe b c = true → charListLe a c = true
  | [], _, _, _, _ => rfl
  | _ :: _, [], _, h, _ => by simp [charListLe] at h
  | _ :: _, _ :: _, [], _, h => by simp [charListLe] at h
  | a :: as, b :: bs, c :: cs, h₁, h₂ => by
    simp only [charListLe, Bool.or_eq_true, Bool.and_eq_true, decide_eq_true_eq] at h₁ h₂ ⊢
    rcases h₁ with h₁ | ⟨h₁e, h₁r⟩
    · rcases h₂ with h₂ | ⟨h₂e, _⟩
      · exact Or.inl (Nat.lt_trans h₁ h₂)
      · exact Or.inl (h₂e ▸ h₁)
    · rcases h₂ with h₂ | ⟨h₂e, h₂r⟩
      · exact Or.inl (h₁e ▸ h₂)
      · exact Or.inr ⟨h₁e.trans h₂e, charListLe_trans h₁r h₂r⟩

theorem pyStrLe_total (a b : String) : pyStrLe a b = true ∨ pyStrLe b a = true :=
  charListLe_total a.data b.data

theorem pyStrLe_trans {a b c : String} (h₁ : pyStrLe a b = true) (h₂ : pyStrLe b c = true) :
    pyStrLe a c = true :=
  charListLe_trans h₁ h₂

/-! Lemmas about the order-preserving dedup. -/

theorem dedupeAux_congr_seen (key : String → String) :
    ∀ (l : List String) (seen₁ seen₂ : List String),
      (∀ a, a ∈ seen₁ ↔ a ∈ seen₂) → dedupeAux key l seen₁ = dedupeAux key l seen₂ := by
  intro l
  induction l with
  | nil => intro _ _ _; rfl
  | cons x xs ih =>
    intro s₁ s₂ h
    simp only [dedupeAux]
    by_cases hx : key x ∈ s₁
    · rw [if_pos hx, if_pos ((h _).mp hx)]
      exact ih _ _ h
    · rw [if_neg hx, if_neg (fun c => hx ((h _).mpr c))]
      congr 1
      exact ih _ _ (fun a => by simp [h a])

theorem dedupeAux_cons_seen (key : String → String) (k : String) :
    ∀ (l : List String) (seen : List String),
      dedupeAux key l (k :: seen) = dedupeAux key (l.filter (fun x => key x ≠ k)) seen := by
  intro l
  induction l with
  | nil => intro _; rfl
  | cons x xs ih =>
    intro seen
    by_cases hk : key x = k
    · rw [List.filter_cons_of_neg (by simp [hk])]
      simp only [dedupeAux]
      rw [if_pos (by simp [hk]), ih]
    · rw [List.filter_cons_of_pos (by simp [hk])]
      by_cases hs : key x ∈ seen
      · simp only [dedupeAux]
        rw [if_pos (by simp [hs]), if_pos hs, ih]
      · simp only [dedupeAux]
        rw [if_neg (by simp [hk, hs]), if_neg hs]
        congr 1
        rw [dedupeAux_congr_seen key xs (key x :: k :: seen) (k :: key x :: seen)
              (fun a => by constructor <;> (intro h; simp at h ⊢; tauto)),
            ih]

theorem de_dupe_cons (x : String) (xs : List String) :
    de_dupe_preserve_order (x :: xs) =
      x :: de_dupe_preserve_order (xs.filter (fun s => pyLower s ≠ pyLower x)) := by
  unfold de_dupe_preserve_order
  simp only [dedupeAux]
  rw [if_neg (List.not_mem_nil _)]
  congr 1
  exact dedupeAux_cons_seen pyLower (pyLower x) xs []

/-- C1: for a relation whose stripped lex_ref names an entry of the
core index, the staged verbs_resolved has the entry id (original
casing) as its first element, and the rest is the entry synonym list
with case-insensitive duplicates removed, first occurrence kept, where
any synonym equal to the id up to case collapses into the leading id
occurrence. -/
theorem resolved_head_id_tail_dedupe (index : List VerbEntryRaw) (dropVerbs : Bool)
    (rid : String) (rel : RelEntry) (lex : VerbEntryRaw)
    (h₁ : pyStrip (rel.lex_ref.getD "") ≠ "")
    (h₂ : coreIndexLookup index (pyStrip (rel.lex_ref.getD "")) = some lex) :
    (stageOne index dropVerbs (rid, rel)).1.verbs_resolved =
      (lex.id.getD "") ::
        de_dupe_preserve_order
          ((lex.synonyms.getD []).filter (fun s => pyLower s ≠ pyLower (lex.id.getD ""))) := by
  unfold stageOne
  simp only [h₂, if_neg h₁]
  exact de_dupe_cons _ _

/-- Witness for C1 at a concrete lexicon entry and relation. -/
theorem resolved_head_id_tail_dedupe_witness :
    pyStrip (((some "Run" : Option String)).getD "") ≠ "" ∧
    coreIndexLookup [{ id := some "Run", synonyms := some ["jog", "rUn", "sprint"] }]
        (pyStrip (((some "Run" : Option String)).getD "")) =
      some { id := some "Run", synonyms := some ["jog", "rUn", "sprint"] } ∧
    (stageOne [{ id := some "Run", synonyms := some ["jog", "rUn", "sprint"] }] false
        ("r1", { lex_ref := some "Run" })).1.verbs_resolved =
      "Run" :: de_dupe_preserve_order
        (["jog", "rUn", "sprint"].filter (fun s => pyLower s ≠ pyLower "Run")) :=
  ⟨by decide, by decide,
    resolved_head_id_tail_dedupe
      [{ id := some "Run", synonyms := some ["jog", "rUn", "sprint"] }] false
      "r1" { lex_ref := some "Run" }
      { id := some "Run", synonyms := some ["jog", "rUn", "sprint"] }
      (by decide) (by decide)⟩

/-! Lemmas for the invalid lex_ref pipeline behaviour. -/

theorem stageOne_invalid (index : List VerbEntryRaw) (dropVerbs : Bool)
    (rid : String) (rel : RelEntry)
    (h : pyStrip (rel.lex_ref.getD "") = "" ∨
         coreIndexLookup index (pyStrip (rel.lex_ref.getD "")) = none) :
    (stageOne index dropVerbs (rid, rel)).1.verbs_resolved = [] ∧
    (stageOne index dropVerbs (rid, rel)).2 = some ⟨rid, pyStrip (rel.lex_ref.getD "")⟩ := by
  unfold stageOne
  rcases h with h | h
  · simp only [h]
    cases hc : coreIndexLookup index "" <;> simp [hc]
  · simp [h]

theorem stageOne_issue_rel (index : List VerbEntryRaw) (dropVerbs : Bool)
    (p : String × RelEntry) (i : LexIssue)
    (h : (stageOne index dropVerbs p).2 = some i) : i.rel = p.1 := by
  unfold stageOne at h
  dsimp only at h
  rcases hc : coreIndexLookup index (pyStrip (p.2.lex_ref.getD "")) with _ | lex
  · rw [hc] at h
    simp only [Option.some.injEq] at h
    rw [← h]
  · rw [hc] at h
    dsimp only at h
    by_cases he : pyStrip (p.2.lex_ref.getD "") = ""
    · rw [if_pos he] at h
      simp only [Option.some.injEq] at h
      rw [← h]
    · rw [if_neg he] at h
      cases h

theorem filterMap_filter_key_nil (f : String × RelEntry → Option LexIssue)
    (hf : ∀ p i, f p = some i → i.rel = p.1) (rid : String) :
    ∀ l : List (String × RelEntry), rid ∉ l.map Prod.fst →
      (l.filterMap f).filter (fun i => i.rel = rid) = [] := by
  intro l
  induction l with
  | nil => intro _; rfl
  | cons hd tl ih =>
    intro hni
    have hhd : hd.1 ≠ rid := fun e => hni (by simp [e])
    have htl : rid ∉ tl.map Prod.fst := fun m => hni (by simp [m])
    rw [List.filterMap_cons]
    cases hf₁ : f hd with
    | none => exact ih htl
    | some i =>
      rw [List.filter_cons_of_neg (by simp [hf _ _ hf₁, hhd])]
      exact ih htl

theorem filterMap_filter_key_unique (f : String × RelEntry → Option LexIssue)
    (hf : ∀ p i, f p = some i → i.rel = p.1)
    (rid : String) (rel : RelEntry) (j : LexIssue)
    (hj : f (rid, rel) = some j) (hjrel : j.rel = rid) :
    ∀ l : List (String × RelEntry), (l.map Prod.fst).Nodup → (rid, rel) ∈ l →
      (l.filterMap f).filter (fun i => i.rel = rid) = [j] := by
  intro l
  induction l with
  | nil => intro _ h; cases h
  | cons hd tl ih =>
    intro hnd hmem
    rw [List.map_cons] at hnd
    have hnd₁ : hd.1 ∉ tl.map Prod.fst := (List.nodup_cons.mp hnd).1
    have hnd₂ : (tl.map Prod.fst).Nodup := (List.nodup_cons.mp hnd).2
    rcases List.mem_cons.mp hmem with heq | htl
    · rw [← heq]
      rw [List.filterMap_cons, hj, List.filter_cons_of_pos (by simp [hjrel])]
      have hni : rid ∉ tl.map Prod.fst := by
        rw [← heq] at hnd₁
        exact hnd₁
      rw [filterMap_filter_key_nil f hf rid tl hni]
    · have hhd : hd.1 ≠ rid := by
        intro e
        exact hnd₁ (e ▸ (List.mem_map.mpr ⟨(rid, rel), htl, rfl⟩))
      rw [List.filterMap_cons]
      cases hf₁ : f hd with
      | none => exact ih hnd₂ htl
      | some i =>
        rw [List.filter_cons_of_neg (by simp [hf _ _ hf₁, hhd])]
        exact ih hnd₂ htl

/-- C2: a relation whose lex_ref is absent, empty after stripping, or
not a key of the core index is staged with verbs_resolved = [], appears
in the staged preview, and yields exactly one invalid_lex_ref issue
carrying its mapping key (the staging loop never raises: stageRels is a
total function). -/
theorem invalid_lexref_flagged_and_staged (index : List VerbEntryRaw)
    (validIds : List String) (dropVerbs : Bool)
    (rels : List (String × RelEntry)) (rid : String) (rel : RelEntry)
    (hmem : (rid, rel) ∈ rels)
    (hnd : (rels.map Prod.fst).Nodup)
    (hbad : pyStrip (rel.lex_ref.getD "") = "" ∨
            coreIndexLookup index (pyStrip (rel.lex_ref.getD "")) = none) :
    ((stageRels index validIds dropVerbs rels).invalid_lex_ref.filter
        (fun i => i.rel = rid)) = [⟨rid, pyStrip (rel.lex_ref.getD "")⟩] ∧
    (stageOne index dropVerbs (rid, rel)).1 ∈ (stageRels index validIds dropVerbs rels).staged ∧
    (stageOne index dropVerbs (rid, rel)).1.verbs_resolved = [] := by
  have hperm : List.Perm (pySortRels rels) rels := List.perm_insertionSort _ rels
  have hmem' : (rid, rel) ∈ pySortRels rels := hperm.mem_iff.mpr hmem
  have hnd' : ((pySortRels rels).map Prod.fst).Nodup :=
    ((hperm.map Prod.fst).nodup_iff).mpr hnd
  obtain ⟨hres, hiss⟩ := stageOne_invalid index dropVerbs rid rel hbad
  refine ⟨?_, ?_, hres⟩
  · exact filterMap_filter_key_unique _ (stageOne_issue_rel index dropVerbs) rid rel
      ⟨rid, pyStrip (rel.lex_ref.getD "")⟩ hiss rfl (pySortRels rels) hnd' hmem'
  · exact List.mem_map.mpr ⟨(rid, rel), hmem', rfl⟩

/-- Witness for C2 at a one-relation document with an absent lex_ref. -/
theorem invalid_lexref_flagged_and_staged_witness :
    (("r1", ({ lex_ref := none } : RelEntry)) ∈ [("r1", ({ lex_ref := none } : RelEntry))] ∧
      ([("r1", ({ lex_ref := none } : RelEntry))].map Prod.fst).Nodup ∧
      pyStrip ((({ lex_ref := none } : RelEntry).lex_ref.getD "")) = "") ∧
    ((stageRels [] ["r1"] false [("r1", { lex_ref := none })]).invalid_lex_ref.filter
        (fun i => i.rel = "r1")) =
      [⟨"r1", pyStrip ((({ lex_ref := none } : RelEntry).lex_ref.getD ""))⟩] ∧
    (stageOne [] false ("r1", { lex_ref := none })).1 ∈
      (stageRels [] ["r1"] false [("r1", { lex_ref := none })]).staged ∧
    (stageOne [] false ("r1", { lex_ref := none })).1.verbs_resolved = [] :=
  ⟨⟨by decide, by decide, by decide⟩,
    invalid_lexref_flagged_and_staged [] ["r1"] false
      [("r1", { lex_ref := none })] "r1" { lex_ref := none }
      (by decide) (by decide) (Or.inl (by decide))⟩

/-! C3: the null exemption for inverse_of targets. -/

/-- C3 counterexample: an inverse_of list containing the literal string
null, where no relation is named null, IS recorded as an
invalid_inverse_targets issue by both the Stager and the standalone
validator, contradicting the claim that such a target is never
recorded. -/
theorem list_null_target_is_reported :
    invIssuesOf ["r1"] "r1" { inverse_of := some (.list ["null"]) } = [⟨"r1", "null"⟩] ∧
    vInvIssues ["r1"] "r1" { inverse_of := some (.list ["null"]) } = [⟨"r1", "null"⟩] :=
  ⟨by decide, by decide⟩

/-- C3 amended: the null exemption applies only to scalar inverse_of
values.  A scalar equal to null up to case is never recorded by either
tool; a list element not in the relation-id set is always recorded by
both tools, even when it equals null. -/
theorem inverse_null_scalar_only (ids : List String) (rid : String)
    (s t : String) (ts : List String)
    (hnull : pyLower s = "null")
    (hts : t ∈ ts) (hmiss : t ∉ ids) :
    invIssuesOf ids rid { inverse_of := some (.str s) } = [] ∧
    vInvIssues ids rid { inverse_of := some (.str s) } = [] ∧
    (⟨rid, t⟩ : InvIssue) ∈ invIssuesOf ids rid { inverse_of := some (.list ts) } ∧
    (⟨rid, t⟩ : InvIssue) ∈ vInvIssues ids rid { inverse_of := some (.list ts) } := by
  have hse : s ≠ "" := by
    intro e
    rw [e] at hnull
    exact absurd hnull (by decide)
  have hmem : (⟨rid, t⟩ : InvIssue) ∈ (ts.filter (fun x => x ∉ ids)).map
      (fun x => (⟨rid, x⟩ : InvIssue)) :=
    List.mem_map.mpr ⟨t, List.mem_filter.mpr ⟨hts, by simpa using hmiss⟩, rfl⟩
  refine ⟨?_, ?_, hmem, hmem⟩
  · unfold invIssuesOf
    dsimp only
    rw [if_neg (by simp [hnull])]
  · unfold vInvIssues
    dsimp only
    rw [if_neg hse, if_neg (by simp [hnull])]

/-- Witness for the amended C3 statement. -/
theorem inverse_null_scalar_only_witness :
    (pyLower "NULL" = "null" ∧ "null" ∈ ["null"] ∧ "null" ∉ ["r1"]) ∧
    invIssuesOf ["r1"] "r1" { inverse_of := some (.str "NULL") } = [] ∧
    vInvIssues ["r1"] "r1" { inverse_of := some (.str "NULL") } = [] ∧
    (⟨"r1", "null"⟩ : InvIssue) ∈ invIssuesOf ["r1"] "r1" { inverse_of := some (.list ["null"]) } ∧
    (⟨"r1", "null"⟩ : InvIssue) ∈ vInvIssues ["r1"] "r1" { inverse_of := some (.list ["null"]) } :=
  ⟨⟨by decide, by decide, by decide⟩,
    inverse_null_scalar_only ["r1"] "r1" "NULL" "null" ["null"]
      (by decide) (by decide) (by decide)⟩

/-! C4: lemmas about the synonym_to_primary dict fold. -/

theorem dlookupL_dictAppend_self (k v : String) :
    ∀ d : List (String × List String),
      dlookupL (dictAppend d k v) k = dlookupL d k ++ [v] := by
  intro d
  induction d with
  | nil => simp [dictAppend, dlookupL, List.find?]
  | cons hd tl ih =>
    by_cases hk : hd.1 = k
    · obtain ⟨k₀, vs⟩ := hd
      simp only at hk
      subst hk
      simp [dictAppend, dlookupL, List.find?]
    · obtain ⟨k₀, vs⟩ := hd
      simp only at hk
      simp only [dictAppend, if_neg hk]
      simp only [dlookupL, List.find?]
      rw [show (decide (k₀ = k)) = false from by simp [hk]]
      exact ih

theorem dlookupL_dictAppend_ne (k v k₁ : String) (hne : k₁ ≠ k) :
    ∀ d : List (String × List String),
      dlookupL (dictAppend d k v) k₁ = dlookupL d k₁ := by
  intro d
  induction d with
  | nil => simp [dictAppend, dlookupL, List.find?, Ne.symm hne]
  | cons hd tl ih =>
    obtain ⟨k₀, vs⟩ := hd
    by_cases hk : k₀ = k
    · subst hk
      simp only [dictAppend, if_pos rfl]
      simp [dlookupL, List.find?, Ne.symm hne]
    · simp only [dictAppend, if_neg hk]
      simp only [dlookupL, List.find?] at ih ⊢
      cases hdec : decide (k₀ = k₁) <;> simp [hdec] <;> simpa [hdec] using ih

theorem dlookupL_innerFold (p x : String) :
    ∀ (syns : List String) (d : List (String × List String)),
      dlookupL (syns.foldl (fun d₀ syn => dictAppend d₀ syn p) d) x =
        dlookupL d x ++ ((syns.filter (fun s => s = x)).map (fun _ => p)) := by
  intro syns
  induction syns with
  | nil => intro d; simp
  | cons s rest ih =>
    intro d
    rw [List.foldl_cons, ih]
    by_cases hs : s = x
    · subst hs
      rw [dlookupL_dictAppend_self s p d,
          List.filter_cons_of_pos (by simp), List.map_cons, List.append_assoc]
      rfl
    · rw [dlookupL_dictAppend_ne s p x (Ne.symm hs) d,
          List.filter_cons_of_neg (by simp [hs])]

theorem dlookupL_outerFold (x : String) :
    ∀ (verbs : List VerbEntryRaw) (d : List (String × List String)),
      dlookupL (verbs.foldl stpStep d) x = dlookupL d x ++ ownersSpec verbs x := by
  intro verbs
  induction verbs with
  | nil => intro d; simp [ownersSpec]
  | cons v rest ih =>
    intro d
    rw [List.foldl_cons, ih]
    show dlookupL (stpStep d v) x ++ _ = _
    unfold stpStep ownersSpec
    cases hid : pyTruthy v.id with
    | none => simp [hid, ownersSpec]
    | some p =>
      rw [dlookupL_innerFold p x (v.synonyms.getD []) d]
      simp [hid, ownersSpec, List.append_assoc]

theorem dlookupL_synonym_to_primary (verbs : List VerbEntryRaw) (x : String) :
    dlookupL (synonym_to_primary verbs) x = ownersSpec verbs x := by
  unfold synonym_to_primary
  rw [dlookupL_outerFold x verbs []]
  rfl

theorem mem_of_dlookupL_ne_nil (x : String) :
    ∀ d : List (String × List String), dlookupL d x ≠ [] → (x, dlookupL d x) ∈ d := by
  intro d
  induction d with
  | nil => intro h; exact absurd rfl h
  | cons hd tl ih =>
    obtain ⟨k₀, vs⟩ := hd
    intro h
    by_cases hk : k₀ = x
    · subst hk
      have hv : dlookupL ((k₀, vs) :: tl) k₀ = vs := by simp [dlookupL, List.find?]
      rw [hv]
      exact List.mem_cons_self _ _
    · have hne : dlookupL ((k₀, vs) :: tl) x = dlookupL tl x := by
        simp [dlookupL, List.find?, hk]
      rw [hne] at h ⊢
      exact List.mem_cons_of_mem _ (ih h)

theorem ownersSpec_decomp (l₁ l₂ l₃ : List VerbEntryRaw) (A B : VerbEntryRaw)
    (a b x : String) (hA : pyTruthy A.id = some a) (hB : pyTruthy B.id = some b) :
    ownersSpec (l₁ ++ A :: (l₂ ++ B :: l₃)) x =
      ownersSpec l₁ x ++
        (((A.synonyms.getD []).filter (fun s => s = x)).map (fun _ => a) ++
          (ownersSpec l₂ x ++
            (((B.synonyms.getD []).filter (fun s => s = x)).map (fun _ => b) ++
              ownersSpec l₃ x))) := by
  simp [ownersSpec, hA, hB]

/-- C4: cross-entry duplicate detection is symmetric and complete.  If
two distinct positions of the verbs list hold entries A and B with
truthy ids a and b, and both list the synonym x, then the
duplicate_synonyms report contains an entry for x whose owner list
contains both a and b. -/
theorem cross_entry_duplicates_complete (verbs l₁ l₂ l₃ : List VerbEntryRaw)
    (A B : VerbEntryRaw) (a b x : String)
    (hsplit : verbs = l₁ ++ A :: (l₂ ++ B :: l₃))
    (hA : pyTruthy A.id = some a) (hB : pyTruthy B.id = some b)
    (hxA : x ∈ A.synonyms.getD []) (hxB : x ∈ B.synonyms.getD []) :
    (x, dlookupL (synonym_to_primary verbs) x) ∈ duplicate_synonyms verbs ∧
    a ∈ dlookupL (synonym_to_primary verbs) x ∧
    b ∈ dlookupL (synonym_to_primary verbs) x := by
  have hlk := dlookupL_synonym_to_primary verbs x
  have hdec : ownersSpec verbs x = _ := hsplit ▸ ownersSpec_decomp l₁ l₂ l₃ A B a b x hA hB
  have hfA : x ∈ (A.synonyms.getD []).filter (fun s => s = x) :=
    List.mem_filter.mpr ⟨hxA, by simp⟩
  have hfB : x ∈ (B.synonyms.getD []).filter (fun s => s = x) :=
    List.mem_filter.mpr ⟨hxB, by simp⟩
  have haIn : a ∈ ((A.synonyms.getD []).filter (fun s => s = x)).map (fun _ => a) :=
    List.mem_map.mpr ⟨x, hfA, rfl⟩
  have hbIn : b ∈ ((B.synonyms.getD []).filter (fun s => s = x)).map (fun _ => b) :=
    List.mem_map.mpr ⟨x, hfB, rfl⟩
  have hlenA : 1 ≤ ((A.synonyms.getD []).filter (fun s => s = x)).length :=
    List.length_pos.mpr (List.ne_nil_of_mem hfA)
  have hlenB : 1 ≤ ((B.synonyms.getD []).filter (fun s => s = x)).length :=
    List.length_pos.mpr (List.ne_nil_of_mem hfB)
  have hlen2 : 2 ≤ (ownersSpec verbs x).length := by
    rw [hdec]
    simp only [List.length_append, List.length_map]
    omega
  have hamem : a ∈ ownersSpec verbs x := by
    rw [hdec]
    simp only [List.mem_append]
    tauto
  have hbmem : b ∈ ownersSpec verbs x := by
    rw [hdec]
    simp only [List.mem_append]
    tauto
  have hne : dlookupL (synonym_to_primary verbs) x ≠ [] := by
    rw [hlk]
    exact List.ne_nil_of_length_pos (by omega)
  refine ⟨List.mem_filter.mpr ⟨mem_of_dlookupL_ne_nil x (synonym_to_primary verbs) hne, ?_⟩,
    ?_, ?_⟩
  · simp only [decide_eq_true_eq, gt_iff_lt, hlk]
    omega
  · rw [hlk]; exact hamem
  · rw [hlk]; exact hbmem

/-- Witness for C4 at a two-entry lexicon sharing the synonym x. -/
theorem cross_entry_duplicates_complete_witness :
    ([{ id := some "a", synonyms := some ["x"] }, { id := some "b", synonyms := some ["x"] }] =
      ([] : List VerbEntryRaw) ++ { id := some "a", synonyms := some ["x"] } ::
        (([] : List VerbEntryRaw) ++ { id := some "b", synonyms := some ["x"] } :: []) ∧
      pyTruthy (some "a") = some "a" ∧ pyTruthy (some "b") = some "b" ∧
      "x" ∈ ["x"] ∧ "x" ∈ ["x"]) ∧
    ("x", dlookupL (synonym_to_primary
        [{ id := some "a", synonyms := some ["x"] }, { id := some "b", synonyms := some ["x"] }]) "x") ∈
      duplicate_synonyms
        [{ id := some "a", synonyms := some ["x"] }, { id := some "b", synonyms := some ["x"] }] ∧
    "a" ∈ dlookupL (synonym_to_primary
        [{ id := some "a", synonyms := some ["x"] }, { id := some "b", synonyms := some ["x"] }]) "x" ∧
    "b" ∈ dlookupL (synonym_to_primary
        [{ id := some "a", synonyms := some ["x"] }, { id := some "b", synonyms := some ["x"] }]) "x" :=
  ⟨⟨by decide, by decide, by decide, by decide, by decide⟩,
    cross_entry_duplicates_complete
      [{ id := some "a", synonyms := some ["x"] }, { id := some "b", synonyms := some ["x"] }]
      [] [] [] { id := some "a", synonyms := some ["x"] } { id := some "b", synonyms := some ["x"] }
      "a" "b" "x" (by decide) (by decide) (by decide) (by decide) (by decide)⟩

/-! C5: the required-field check of the standalone validator. -/

/-- C5 counterexample: a relation whose id and description are both
present but empty receives no empty_or_missing_fields issue at all,
although the claim requires one issue per empty field. -/
theorem empty_fields_not_flagged :
    (validate [] [("r1", { id := some "", description := some "" })]).empty_or_missing_fields
      = [] := by decide

theorem mem_vFieldIssues (rid : String) (rel : RelEntry) (i : FieldIssue) :
    i ∈ vFieldIssues rid rel ↔
      (rel.id = none ∧ i = ⟨rid, "id"⟩) ∨
        (rel.description = none ∧ i = ⟨rid, "description"⟩) := by
  unfold vFieldIssues requiredFields
  cases hid : rel.id <;> cases hdesc : rel.description <;>
    simp [hasField, hid, hdesc, List.filterMap_cons]

/-- C5 amended: the validator records an empty_or_missing_fields issue
exactly for each of id and description ABSENT from the relation
mapping; a field present with an empty string is not flagged, so a
relation with both fields present, even empty, receives no issue. -/
theorem missing_fields_characterisation (core : List VerbEntryRaw)
    (rels : List (String × RelEntry)) (i : FieldIssue) :
    i ∈ (validate core rels).empty_or_missing_fields ↔
      ∃ p ∈ rels, (p.2.id = none ∧ i = ⟨p.1, "id"⟩) ∨
        (p.2.description = none ∧ i = ⟨p.1, "description"⟩) := by
  unfold validate
  dsimp only
  rw [List.mem_flatMap]
  constructor
  · rintro ⟨p, hp, hi⟩
    exact ⟨p, hp, (mem_vFieldIssues p.1 p.2 i).mp hi⟩
  · rintro ⟨p, hp, hc⟩
    exact ⟨p, hp, (mem_vFieldIssues p.1 p.2 i).mpr hc⟩

/-! C6: behaviour on a verb entry without an id. -/

theorem buildCore_error (core : List VerbEntryRaw)
    (h : ∃ v ∈ core, pyStrip (v.id.getD "") = "") :
    buildCore core = .error "Found a core verb without an id." := by
  induction core with
  | nil => obtain ⟨v, hv, _⟩ := h; cases hv
  | cons v vs ih =>
    by_cases hb : pyStrip (v.id.getD "") = ""
    · unfold buildCore
      rw [if_pos hb]
    · obtain ⟨w, hw, hws⟩ := h
      rcases List.mem_cons.mp hw with heq | hw₂
      · exact absurd (heq ▸ hws) hb
      · unfold buildCore
        rw [if_neg hb, ih ⟨w, hw₂, hws⟩]
        rfl

theorem coreIds_skip (l₁ l₂ : List VerbEntryRaw) (v : VerbEntryRaw)
    (hfalsy : pyTruthy v.id = none) :
    coreIds (l₁ ++ v :: l₂) = coreIds (l₁ ++ l₂) := by
  unfold coreIds
  rw [List.filterMap_append, List.filterMap_append, List.filterMap_cons, hfalsy]

/-- C6 counterexample: the standalone validator, one of the two runs
the claim covers, does not abort on a lexicon document containing a
verb entry with no id: it completes with status OK and exit code 0. -/
theorem validator_no_abort_on_missing_id :
    validateExit [{ id := none, synonyms := some ["x"] }] [] = 0 ∧
    validateStatus [{ id := none, synonyms := some ["x"] }] [] = "OK" :=
  ⟨by decide, by decide⟩

/-- C6 amended: the Stager aborts with a fixed error (ValueError caught
at top level, exit 1) before writing anything when some core entry id
strips to empty, while the standalone validator skips a verb entry
whose id is absent or empty and behaves exactly as if the entry were
not there. -/
theorem missing_id_stager_aborts (corePath relsPath timestamp : String)
    (core l₁ l₂ : List VerbEntryRaw) (v : VerbEntryRaw)
    (rels : List (String × RelEntry)) (dropVerbs : Bool)
    (hbad : ∃ w ∈ core, pyStrip (w.id.getD "") = "")
    (hfalsy : pyTruthy v.id = none) :
    buildStage corePath relsPath timestamp core rels dropVerbs =
      .error "Found a core verb without an id." ∧
    validate (l₁ ++ v :: l₂) rels = validate (l₁ ++ l₂) rels ∧
    validateExit (l₁ ++ v :: l₂) rels = validateExit (l₁ ++ l₂) rels := by
  have hv : validate (l₁ ++ v :: l₂) rels = validate (l₁ ++ l₂) rels := by
    unfold validate
    rw [coreIds_skip l₁ l₂ v hfalsy]
  refine ⟨?_, hv, ?_⟩
  · unfold buildStage
    rw [buildCore_error core hbad]
    rfl
  · unfold validateExit validateClean
    rw [hv]

/-- Witness for the amended C6 statement. -/
theorem missing_id_stager_aborts_witness :
    ((∃ w ∈ [({ id := some " " } : VerbEntryRaw)], pyStrip (w.id.getD "") = "") ∧
      pyTruthy (({ id := none } : VerbEntryRaw)).id = none) ∧
    buildStage "c" "r" "t" [{ id := some " " }] [] false =
      .error "Found a core verb without an id." ∧
    validate ([] ++ ({ id := none } : VerbEntryRaw) :: []) [] = validate ([] ++ []) [] ∧
    validateExit ([] ++ ({ id := none } : VerbEntryRaw) :: []) [] = validateExit ([] ++ []) [] :=
  ⟨⟨⟨{ id := some " " }, by decide, by decide⟩, by decide⟩,
    missing_id_stager_aborts "c" "r" "t" [{ id := some " " }] [] [] { id := none } [] false
      ⟨{ id := some " " }, by decide, by decide⟩ (by decide)⟩

/-! C7: byte-identity across runs and ordering. -/

/-- C7 counterexample: two runs at different wall-clock instants write
different stage_report artifacts, because the shared summary embeds the
generated_at timestamp taken from the clock. -/
theorem staging_not_byte_identical :
    (buildStage "core.yaml" "rels.yaml" "2025-01-01T00:00:00" [] [] false).toOption.map
        (fun a => a.stageReport.1.generated_at) = some "2025-01-01T00:00:00" ∧
    (buildStage "core.yaml" "rels.yaml" "2025-01-01T00:00:01" [] [] false).toOption.map
        (fun a => a.stageReport.1.generated_at) = some "2025-01-01T00:00:01" ∧
    ("2025-01-01T00:00:00" : String) ≠ "2025-01-01T00:00:01" :=
  ⟨rfl, rfl, by decide⟩

theorem stageOne_id_field (index : List VerbEntryRaw) (dropVerbs : Bool)
    (p : String × RelEntry) :
    ((stageOne index dropVerbs p).1).id = pyOrStr p.2.id p.1 := by
  unfold stageOne
  dsimp only
  split
  · rfl
  · split <;> rfl

/-- C7 amended: the staged artifacts are not byte-identical across
runs on unchanged inputs.  The shared summary embeds the wall-clock
timestamp, and the relative order of case-insensitively-equal synonyms
within an entry is the iteration order of a Python set, which is
hash-seed randomized across processes: the sort by lowered key cannot
separate such ties, as the two enumerations of the set holding Foo and
foo below show, so the set order flows into the written previews.  The
relation ordering, by contrast, is deterministic and never
iteration-order-dependent: the staged records follow the relation
mapping keys sorted lexicographically by their lowered form, so when
every relation id defaults to its mapping key the staged ids appear in
that order. -/
theorem staged_keys_sorted_ci (index : List VerbEntryRaw) (validIds : List String)
    (dropVerbs : Bool) (rels : List (String × RelEntry))
    (hids : ∀ p ∈ rels, pyOrStr p.2.id p.1 = p.1) :
    ((stageRels index validIds dropVerbs rels).staged.map StagedRel.id).Pairwise
      (fun a b => pyStrLe (pyLower a) (pyLower b) = true) ∧
    List.insertionSort (fun a b => pyStrLe (pyLower a) (pyLower b) = true) ["Foo", "foo"]
      = ["Foo", "foo"] ∧
    List.insertionSort (fun a b => pyStrLe (pyLower a) (pyLower b) = true) ["foo", "Foo"]
      = ["foo", "Foo"] := by
  refine ⟨?_, by decide, by decide⟩
  have hS : List.Pairwise
      (fun a b : String × RelEntry => pyStrLe (pyLower a.1) (pyLower b.1) = true)
      (pySortRels rels) := by
    haveI : IsTotal (String × RelEntry)
        (fun a b => pyStrLe (pyLower a.1) (pyLower b.1) = true) :=
      ⟨fun a b => pyStrLe_total _ _⟩
    haveI : IsTrans (String × RelEntry)
        (fun a b => pyStrLe (pyLower a.1) (pyLower b.1) = true) :=
      ⟨fun _ _ _ h₁ h₂ => pyStrLe_trans h₁ h₂⟩
    exact List.sorted_insertionSort _ rels
  have hmapid : (stageRels index validIds dropVerbs rels).staged.map StagedRel.id =
      (pySortRels rels).map Prod.fst := by
    unfold stageRels
    dsimp only
    rw [List.map_map]
    apply List.map_congr_left
    intro p hp
    have hp₂ : p ∈ rels := (List.perm_insertionSort _ rels).mem_iff.mp hp
    show (stageOne index dropVerbs p).1.id = p.1
    rw [stageOne_id_field index dropVerbs p]
    exact hids p hp₂
  rw [hmapid]
  exact List.pairwise_map.mpr hS

/-- Witness for the amended C7 statement. -/
theorem staged_keys_sorted_ci_witness :
    (∀ p ∈ [("b", ({ id := none } : RelEntry)), ("A", { id := some "" })],
        pyOrStr p.2.id p.1 = p.1) ∧
    ((stageRels [] [] false [("b", { id := none }), ("A", { id := some "" })]).staged.map
        StagedRel.id).Pairwise (fun a b => pyStrLe (pyLower a) (pyLower b) = true) ∧
    List.insertionSort (fun a b => pyStrLe (pyLower a) (pyLower b) = true) ["Foo", "foo"]
      = ["Foo", "foo"] ∧
    List.insertionSort (fun a b => pyStrLe (pyLower a) (pyLower b) = true) ["foo", "Foo"]
      = ["foo", "Foo"] :=
  ⟨by decide,
    staged_keys_sorted_ci [] [] false
      [("b", { id := none }), ("A", { id := some "" })] (by decide)⟩

/-! C8: the seed merge touches only the verbs and rels keys. -/

theorem dlookup_dictSet_self {V : Type} (k : String) (v : V) :
    ∀ d : List (String × V), dlookup (dictSet d k v) k = some v := by
  intro d
  induction d with
  | nil => simp [dictSet, dlookup, List.find?]
  | cons hd tl ih =>
    obtain ⟨k₀, v₀⟩ := hd
    by_cases hk : k₀ = k
    · subst hk
      simp [dictSet, dlookup, List.find?]
    · simp only [dictSet, if_neg hk]
      simp only [dlookup, List.find?]
      rw [show (decide (k₀ = k)) = false from by simp [hk]]
      exact ih

theorem dlookup_dictSet_ne {V : Type} (k : String) (v : V) (k₁ : String) (h : k₁ ≠ k) :
    ∀ d : List (String × V), dlookup (dictSet d k v) k₁ = dlookup d k₁ := by
  intro d
  induction d with
  | nil => simp [dictSet, dlookup, List.find?, Ne.symm h]
  | cons hd tl ih =>
    obtain ⟨k₀, v₀⟩ := hd
    by_cases hk : k₀ = k
    · subst hk
      simp only [dictSet, if_pos rfl]
      simp [dlookup, List.find?, Ne.symm h]
    · simp only [dictSet, if_neg hk]
      simp only [dlookup, List.find?] at ih ⊢
      cases hdec : decide (k₀ = k₁) <;> simp [hdec] <;> simpa [hdec] using ih

theorem mem_keys_dictSet {V : Type} (k k₁ : String) (v : V) :
    ∀ d : List (String × V),
      (k₁ ∈ (dictSet d k v).map Prod.fst ↔ (k₁ = k ∨ k₁ ∈ d.map Prod.fst)) := by
  intro d
  induction d with
  | nil => simp [dictSet]
  | cons hd tl ih =>
    obtain ⟨k₀, v₀⟩ := hd
    by_cases hk : k₀ = k
    · subst hk
      rw [show dictSet ((k₀, v₀) :: tl) k₀ v = (k₀, v) :: tl from by simp [dictSet]]
      simp only [List.map_cons, List.mem_cons]
      tauto
    · simp only [dictSet, if_neg hk]
      simp only [List.map_cons, List.mem_cons]
      rw [ih]
      tauto

/-- C8: the merged seed equals the seed with exactly the top-level keys
verbs and rels overwritten by the lexicon verbs list and the relation
mapping; every other key of the seed keeps its value, and the merged
key set is the seed key set plus verbs and rels. -/
theorem merge_overwrites_only_verbs_rels {V : Type}
    (coreVerbs : Option (List VerbEntryRaw)) (relsMap : Option (List (String × RelEntry)))
    (seed : List (String × SeedVal V)) (k : String) :
    dlookup (mergeSeedMain coreVerbs relsMap seed) k =
      (if k = "rels" then some (.relsV (relsMap.getD []))
       else if k = "verbs" then some (.verbsV (coreVerbs.getD []))
       else dlookup seed k) ∧
    (k ∈ (mergeSeedMain coreVerbs relsMap seed).map Prod.fst ↔
      (k = "verbs" ∨ k = "rels" ∨ k ∈ seed.map Prod.fst)) := by
  unfold mergeSeedMain
  constructor
  · by_cases hr : k = "rels"
    · subst hr
      rw [if_pos rfl, dlookup_dictSet_self]
    · rw [if_neg hr, dlookup_dictSet_ne _ _ _ hr]
      by_cases hv : k = "verbs"
      · subst hv
        rw [if_pos rfl, dlookup_dictSet_self]
      · rw [if_neg hv, dlookup_dictSet_ne _ _ _ hv]
  · rw [mem_keys_dictSet, mem_keys_dictSet]
    tauto

/-! C9: what the Stager writes to the lexicon preview. -/

/-- C9 counterexample: a source entry with synonyms ["z", "b"] is
written to the lexicon preview with synonyms ["b", "z"]: the loaded
entries are normalised in place before being echoed, so the preview
entry is not identical to the source entry. -/
theorem preview_verbs_differ :
    (buildStage "c" "r" "t" [{ id := some "a", synonyms := some ["z", "b"] }] [] false).toOption.map
        (fun a => a.verbsPreview.1) =
      some [{ id := some "a", synonyms := some ["b", "z"] }] ∧
    ({ id := some "a", synonyms := some ["b", "z"] } : VerbEntryRaw) ≠
      { id := some "a", synonyms := some ["z", "b"] } :=
  ⟨rfl, by decide⟩

theorem buildCore_ok (core : List VerbEntryRaw) :
    ∀ entries, buildCore core = .ok entries → entries = core.map normVerb := by
  induction core with
  | nil =>
    intro e h
    cases h
    rfl
  | cons v vs ih =>
    intro e h
    unfold buildCore at h
    by_cases hb : pyStrip (v.id.getD "") = ""
    · rw [if_pos hb] at h
      cases h
    · rw [if_neg hb] at h
      cases hr : buildCore vs with
      | error m =>
        rw [hr] at h
        cases h
      | ok rest =>
        rw [hr] at h
        have he : normVerb v :: rest = e := Except.ok.inj h
        rw [← he, List.map_cons, ih rest hr]

/-- C9 amended: the Stager echoes the lexicon with each entry mutated
in place: the preview entries are the source entries with synonyms
replaced by the normalised list (originally empty strings dropped, the
rest stripped, exact duplicates removed, sorted by lowered form); the
id field of every entry is preserved. -/
theorem preview_verbs_normalised (corePath relsPath timestamp : String)
    (core : List VerbEntryRaw) (rels : List (String × RelEntry)) (dropVerbs : Bool)
    (art : Artifacts)
    (h : buildStage corePath relsPath timestamp core rels dropVerbs = .ok art) :
    art.verbsPreview.1 = core.map normVerb ∧
    (∀ v ∈ core, (normVerb v).id = v.id ∧
      (normVerb v).synonyms = some (normSynonyms v.synonyms)) := by
  constructor
  · unfold buildStage at h
    cases hc : buildCore core with
    | error m =>
      rw [hc] at h
      cases h
    | ok entries =>
      rw [hc] at h
      have ha := Except.ok.inj h
      rw [← ha]
      exact buildCore_ok core entries hc
  · intro v _
    exact ⟨rfl, rfl⟩

/-- Witness for the amended C9 statement. -/
theorem preview_verbs_normalised_witness :
    (buildStage "c" "r" "t" [{ id := some "a", synonyms := some ["z", "b"] }] [] false).toOption.map
        (fun a => a.verbsPreview.1) =
      some ([{ id := some "a", synonyms := some ["z", "b"] }].map normVerb) ∧
    (∀ v ∈ [({ id := some "a", synonyms := some ["z", "b"] } : VerbEntryRaw)],
      (normVerb v).id = v.id ∧ (normVerb v).synonyms = some (normSynonyms v.synonyms)) :=
  ⟨congrArg some
      ((preview_verbs_normalised "c" "r" "t" [{ id := some "a", synonyms := some ["z", "b"] }]
        [] false _ rfl).1),
    (preview_verbs_normalised "c" "r" "t" [{ id := some "a", synonyms := some ["z", "b"] }]
      [] false _ rfl).2⟩

/-! C10: validator leniency for falsy lex_ref. -/

theorem pyTruthy_eq_some (o : Option String) (s : String) :
    pyTruthy o = some s ↔ o = some s ∧ s ≠ "" := by
  cases o with
  | none => simp [pyTruthy]
  | some t =>
    unfold pyTruthy
    dsimp only
    by_cases ht : t = ""
    · subst ht
      rw [if_pos rfl]
      constructor
      · intro h
        cases h
      · rintro ⟨h₁, h₂⟩
        exact absurd (Option.some.inj h₁).symm h₂
    · rw [if_neg ht]
      constructor
      · intro h
        exact ⟨h, fun hs => ht ((Option.some.inj h).trans hs)⟩
      · rintro ⟨h₁, _⟩
        exact h₁

/-- C10: a missing_lex_ref_in_core issue exists exactly when some
relation carries a present, non-empty lex_ref that is not among the
core verb ids: so in any document, mixed or not, a relation whose
lex_ref is absent, None or empty never yields an issue; consequently a
relation document in which no relation carries a usable lex_ref still
validates with status OK and exit code 0 when the other checks pass. -/
theorem validator_lenient_falsy_lexref (core : List VerbEntryRaw)
    (rels : List (String × RelEntry)) (i : LexIssue) :
    (i ∈ (validate core rels).missing_lex_ref_in_core ↔
      ∃ p ∈ rels, ∃ s, p.2.lex_ref = some s ∧ s ≠ "" ∧ s ∉ coreIds core ∧
        i = ⟨p.1, s⟩) ∧
    ((∀ p ∈ rels, pyTruthy p.2.lex_ref = none) →
      (∀ p ∈ rels, p.2.id.isSome ∧ p.2.description.isSome ∧ p.2.inverse_of = none) →
      validateStatus core rels = "OK" ∧ validateExit core rels = 0) := by
  constructor
  · unfold validate
    dsimp only
    rw [List.mem_filterMap]
    constructor
    · rintro ⟨p, hp, hi⟩
      refine ⟨p, hp, ?_⟩
      unfold vLexIssue at hi
      cases hl : pyTruthy p.2.lex_ref with
      | none =>
        rw [hl] at hi
        cases hi
      | some s =>
        rw [hl] at hi
        dsimp only at hi
        by_cases hin : s ∈ coreIds core
        · rw [if_neg (not_not_intro hin)] at hi
          cases hi
        · rw [if_pos hin] at hi
          obtain ⟨ho, hs⟩ := (pyTruthy_eq_some p.2.lex_ref s).mp hl
          exact ⟨s, ho, hs, hin, (Option.some.inj hi).symm⟩
    · rintro ⟨p, hp, s, ho, hs, hnin, hi⟩
      refine ⟨p, hp, ?_⟩
      unfold vLexIssue
      rw [(pyTruthy_eq_some p.2.lex_ref s).mpr ⟨ho, hs⟩]
      dsimp only
      rw [if_pos hnin, hi]
  · intro hfalsy hclean
    have hm : (validate core rels).missing_lex_ref_in_core = [] := by
      unfold validate
      dsimp only
      rw [List.filterMap_eq_nil_iff]
      intro p hp
      unfold vLexIssue
      rw [hfalsy p hp]
    have hinv : (validate core rels).invalid_inverse_targets = [] := by
      unfold validate
      dsimp only
      rw [List.flatMap_eq_nil_iff]
      intro p hp
      unfold vInvIssues
      rw [(hclean p hp).2.2]
    have hfield : (validate core rels).empty_or_missing_fields = [] := by
      unfold validate
      dsimp only
      rw [List.flatMap_eq_nil_iff]
      intro p hp
      obtain ⟨h₁, h₂, _⟩ := hclean p hp
      unfold vFieldIssues requiredFields
      simp [hasField, h₁, h₂]
    have hcl : validateClean core rels = true := by
      unfold validateClean
      dsimp only
      rw [hm, hinv, hfield]
      rfl
    constructor
    · unfold validateStatus
      rw [hcl]
      rfl
    · unfold validateExit
      rw [hcl]
      rfl

/-- Witness for C10: the characterisation instantiated at a mixed
document, one relation with an empty lex_ref next to one with an
unknown lex_ref, and the OK consequence at an all-falsy document. -/
theorem validator_lenient_falsy_lexref_witness :
    ((⟨"r1", ""⟩ : LexIssue) ∈
        (validate []
          [("r1", ({ id := some "r1", description := some "d", lex_ref := some "" } : RelEntry)),
            ("r2", { id := some "r2", description := some "d", lex_ref := some "ghost" })]).missing_lex_ref_in_core ↔
      ∃ p ∈ [("r1", ({ id := some "r1", description := some "d", lex_ref := some "" } : RelEntry)),
            ("r2", { id := some "r2", description := some "d", lex_ref := some "ghost" })],
        ∃ s, p.2.lex_ref = some s ∧ s ≠ "" ∧ s ∉ coreIds [] ∧
          (⟨"r1", ""⟩ : LexIssue) = ⟨p.1, s⟩) ∧
    (validateStatus [] [("r1", { id := some "r1", description := some "d" })] = "OK" ∧
      validateExit [] [("r1", { id := some "r1", description := some "d" })] = 0) :=
  ⟨(validator_lenient_falsy_lexref []
      [("r1", { id := some "r1", description := some "d", lex_ref := some "" }),
        ("r2", { id := some "r2", description := some "d", lex_ref := some "ghost" })]
      ⟨"r1", ""⟩).1,
    (validator_lenient_falsy_lexref [] [("r1", { id := some "r1", description := some "d" })]
      ⟨"r1", ""⟩).2 (by decide) (by decide)⟩

end JBF
